import Mathlib

/-!
Verification of the command parser of a chat-triggered expense recorder.

The program (a Discord bot, `index.js`) listens for `!expense ...` messages
and appends a row `[date, amount, category, description, author]` to a
spreadsheet.  The core logic is the function `parseExpense` (source lines
151-191), embedded below.  JavaScript strings are modelled as `List Char`;
the JS number produced by `parseFloat` is modelled exactly as a rational
(`JSNum.num`, IEEE-754 rounding is not modelled) or an infinity
(`JSNum.inf`); `NaN` is modelled as parse failure (`Option.none`), matching
the `isNaN` guard in the source.  The implicit `new Date().toISOString()`
read on line 180 is passed in as an explicit `clock` string, as the
specification requires the current-date dependency to be injectable.
-/

namespace ExpenseBot

/-- The double-quote character (code 34). -/
def dq : Char := Char.ofNat 34

/-- The single-quote character (code 39). -/
def sq : Char := Char.ofNat 39

/-- JavaScript whitespace: the character class `\s` (also the set trimmed by
`String.prototype.trim`): tab, LF, VT, FF, CR, space, NBSP, Ogham space mark,
the Unicode space separators, line/paragraph separators, narrow NBSP,
mathematical space, ideographic space and ZWNBSP. -/
def isJsSpace (c : Char) : Bool :=
  c.toNat = 9 || c.toNat = 10 || c.toNat = 11 || c.toNat = 12 || c.toNat = 13 ||
  c.toNat = 32 || c.toNat = 160 || c.toNat = 5760 ||
  (8192 ≤ c.toNat && c.toNat ≤ 8202) ||
  c.toNat = 8232 || c.toNat = 8233 || c.toNat = 8239 || c.toNat = 8287 ||
  c.toNat = 12288 || c.toNat = 65279

/-- A quote character: `"` or the apostrophe (codes 34 and 39), the class
`["']` used by the tokenizing regex on line 160. -/
def isQuoteChar (c : Char) : Bool := c.toNat = 34 || c.toNat = 39

/-- A character matched by `[^\s"']` in the tokenizing regex. -/
def isPlainChar (c : Char) : Bool := !(isJsSpace c) && !(isQuoteChar c)

/-- Scan for the first quote character: `findQuote cs = some (pre, q, rest)`
splits `cs` as `pre ++ q :: rest` where `pre` is quote-free and `q` is the
first quote character, and returns `none` when `cs` has no quote character. -/
def findQuote : List Char → Option (List Char × Char × List Char)
  | [] => none
  | c :: cs =>
    if isQuoteChar c then some ([], c, cs)
    else
      match findQuote cs with
      | some (pre, q, rest) => some (c :: pre, q, rest)
      | none => none

/-- One repetition of the group `(?:[^\s"']+|["'][^"']*["'])` of the regex on
line 160, matched greedily at the head of `s`: either a maximal run of plain
characters, or a quoted run extending to the next quote character (either
kind of quote closes either kind).  Returns the chunk and the remainder, or
`none` when no chunk matches at the head (whitespace, end of input, or an
unterminated quote). -/
def takeChunk : List Char → Option (List Char × List Char)
  | [] => none
  | c :: cs =>
    if isPlainChar c then some (c :: cs.takeWhile isPlainChar, cs.dropWhile isPlainChar)
    else if isQuoteChar c then
      match findQuote cs with
      | some (pre, q, rest) => some (c :: (pre ++ [q]), rest)
      | none => none
    else none

/-- Fuelled iteration of `takeChunk`: the `+` of the tokenizing regex,
concatenating as many chunks as match consecutively.  Each chunk consumes at
least one character, so fuel `s.length` is always sufficient (see
`takeTokenGo_congr`). -/
def takeTokenGo : Nat → List Char → Option (List Char × List Char)
  | 0, _ => none
  | f + 1, s =>
    match takeChunk s with
    | none => none
    | some (ch, rest) =>
      match takeTokenGo f rest with
      | some (t, r) => some (ch ++ t, r)
      | none => some (ch, rest)

/-- The token matched by the regex `(?:[^\s"']+|["'][^"']*["'])+` at the head
of `s`, with the remainder, or `none` when no token starts at the head. -/
def takeToken (s : List Char) : Option (List Char × List Char) :=
  takeTokenGo s.length s

/-- Fuelled global scan: the behaviour of
`commandContent.match(/(?:[^\s"']+|["'][^"']*["'])+/g) || []` on line 160.
At each position, emit the token matching there and continue after it, or
advance one character.  Fuel `s.length` is always sufficient. -/
def jsTokensF : Nat → List Char → List (List Char)
  | 0, _ => []
  | f + 1, s =>
    match s with
    | [] => []
    | c :: cs =>
      match takeToken (c :: cs) with
      | some (t, rest) => t :: jsTokensF f rest
      | none => jsTokensF f cs

/-- All tokens of `s`, as matched by the global regex on line 160. -/
def jsTokens (s : List Char) : List (List Char) := jsTokensF s.length s

/-- A decimal digit, the class `\d` of the date regex and the digits of
`parseFloat` numerals: codes 48-57, i.e. `0`-`9`. -/
def isDigitChar (c : Char) : Bool := 48 ≤ c.toNat && c.toNat ≤ 57

/-- Numeric value of a list of decimal digits, most significant first. -/
def digitsVal (l : List Char) : Nat :=
  l.foldl (fun a c => a * 10 + (c.toNat - 48)) 0

/-- The value of the optional exponent part (`e`/`E`, optional sign, digits)
at the head of `s`; an absent or malformed exponent part is not part of the
longest valid numeric prefix and contributes exponent `0`, as in
`parseFloat`. -/
def parseExpPart : List Char → Int
  | [] => 0
  | c :: rest =>
    if c = 'e' || c = 'E' then
      match rest with
      | '+' :: ds =>
        if ds.takeWhile isDigitChar ≠ [] then (digitsVal (ds.takeWhile isDigitChar) : Int)
        else 0
      | '-' :: ds =>
        if ds.takeWhile isDigitChar ≠ [] then -(digitsVal (ds.takeWhile isDigitChar) : Int)
        else 0
      | ds =>
        if ds.takeWhile isDigitChar ≠ [] then (digitsVal (ds.takeWhile isDigitChar) : Int)
        else 0
    else 0

/-- A JavaScript number that is not `NaN`: a finite value, represented
exactly as a decimal `mant / 10 ^ scale` (IEEE-754 rounding is not
modelled; see `JSNum.toRat` for the denoted rational), or a signed
infinity. -/
inductive JSNum where
  | num (mant : Int) (scale : Nat)
  | inf (neg : Bool)
deriving DecidableEq, Repr

/-- The rational denoted by a finite JS number (infinities denote nothing
and are mapped to `none`). -/
def JSNum.toRat : JSNum → Option ℚ
  | num m s => some ((m : ℚ) / 10 ^ s)
  | inf _ => none

/-- Unary minus on a JS number. -/
def JSNum.negate : JSNum → JSNum
  | num m s => num (-m) s
  | inf b => inf (!b)

/-- Scale the decimal `m / 10 ^ s` by `10 ^ e`. -/
def applyExpPair (m : Int) (s : Nat) : Int → JSNum
  | Int.ofNat n => JSNum.num (m * 10 ^ n) s
  | Int.negSucc n => JSNum.num m (s + (n + 1))

/-- The unsigned part of `parseFloat`: the longest prefix of `s` that is
`Infinity`, or decimal digits with an optional fraction and exponent, or a
decimal point followed by digits; `none` when no such prefix exists. -/
def parseUnsignedFloat (s : List Char) : Option JSNum :=
  if s.take 8 = ['I', 'n', 'f', 'i', 'n', 'i', 't', 'y'] then some (JSNum.inf false)
  else
    let intDs := s.takeWhile isDigitChar
    let rest1 := s.dropWhile isDigitChar
    if intDs ≠ [] then
      match rest1 with
      | '.' :: r2 =>
        some (applyExpPair
          ((digitsVal intDs : Int) * 10 ^ (r2.takeWhile isDigitChar).length +
            (digitsVal (r2.takeWhile isDigitChar) : Int))
          (r2.takeWhile isDigitChar).length
          (parseExpPart (r2.dropWhile isDigitChar)))
      | _ => some (applyExpPair (digitsVal intDs : Int) 0 (parseExpPart rest1))
    else
      match s with
      | '.' :: r2 =>
        if r2.takeWhile isDigitChar ≠ [] then
          some (applyExpPair (digitsVal (r2.takeWhile isDigitChar) : Int)
            (r2.takeWhile isDigitChar).length
            (parseExpPart (r2.dropWhile isDigitChar)))
        else none
      | _ => none

/-- The ECMAScript `parseFloat` on line 169, with `NaN` as `none`: skip
leading whitespace, then an optional sign followed by the unsigned part. -/
def jsParseFloat (s : List Char) : Option JSNum :=
  match s.dropWhile isJsSpace with
  | '-' :: r => (parseUnsignedFloat r).map JSNum.negate
  | '+' :: r => parseUnsignedFloat r
  | t => parseUnsignedFloat t

/-- `parts[0].replace('$', '')` on line 169: string-valued `replace` removes
only the first occurrence of `$`, wherever it is. -/
def removeFirstDollar : List Char → List Char
  | [] => []
  | c :: cs => if c = '$' then cs else c :: removeFirstDollar cs

/-- `.replace(/["']/g, '')` on lines 176 and 187: drop every quote character. -/
def stripQuotes (s : List Char) : List Char := s.filter (fun c => !(isQuoteChar c))

/-- `.join(' ')` on line 187. -/
def joinSp (ts : List (List Char)) : List Char := List.intercalate [' '] ts

/-- The date test `/^\d{4}-\d{2}-\d{2}$/` on line 184: exactly four digits,
a hyphen, two digits, a hyphen, two digits. -/
def matchesDatePattern (s : List Char) : Bool :=
  match s with
  | [y1, y2, y3, y4, h1, m1, m2, h2, d1, d2] =>
    isDigitChar y1 && isDigitChar y2 && isDigitChar y3 && isDigitChar y4 && h1 = '-' &&
    isDigitChar m1 && isDigitChar m2 && h2 = '-' && isDigitChar d1 && isDigitChar d2
  | _ => false

/-- `content.replace(/^!expense\s+/i, '')` on line 157: when the string
begins with `!expense` (case-insensitively) followed by at least one
whitespace character, remove the prefix and the whole greedy whitespace run;
otherwise leave the string unchanged. -/
def stripCommand (s : List Char) : List Char :=
  match s with
  | c1 :: c2 :: c3 :: c4 :: c5 :: c6 :: c7 :: c8 :: rest =>
    if c1 = '!' && (c2 = 'e' || c2 = 'E') && (c3 = 'x' || c3 = 'X') &&
       (c4 = 'p' || c4 = 'P') && (c5 = 'e' || c5 = 'E') && (c6 = 'n' || c6 = 'N') &&
       (c7 = 's' || c7 = 'S') && (c8 = 'e' || c8 = 'E') then
      match rest with
      | r :: rs => if isJsSpace r then rs.dropWhile isJsSpace else s
      | [] => s
    else s
  | _ => s

/-- `String.prototype.trim` (end of line 157). -/
def jsTrim (s : List Char) : List Char :=
  ((s.dropWhile isJsSpace).reverse.dropWhile isJsSpace).reverse

/-- One cell of the emitted row: the JS array on line 190 mixes strings and
a number. -/
inductive Cell where
  | str (s : String)
  | num (n : JSNum)
deriving DecidableEq, Repr

/-- Lines 176-190 after the amount has parsed: category quote-stripping, the
description/date defaults, the last-token date extraction inside
`parts.length > 2`, and the final row `[date, amount, category, description,
author]`.  `p1` is `parts[1]` and `rest` is `parts.slice(2)`. -/
def buildRecord (n : JSNum) (p1 : List Char) (rest : List (List Char))
    (author : String) (clock : List Char) : List Cell :=
  match rest with
  | [] =>
    [Cell.str (String.mk clock), Cell.num n, Cell.str (String.mk (stripQuotes p1)),
     Cell.str "No description", Cell.str author]
  | r :: rs =>
    if matchesDatePattern ((r :: rs).getLastD []) then
      [Cell.str (String.mk ((r :: rs).getLastD [])), Cell.num n,
       Cell.str (String.mk (stripQuotes p1)),
       Cell.str (String.mk (stripQuotes (joinSp ((r :: rs).dropLast)))), Cell.str author]
    else
      [Cell.str (String.mk clock), Cell.num n, Cell.str (String.mk (stripQuotes p1)),
       Cell.str (String.mk (stripQuotes (joinSp (r :: rs)))), Cell.str author]

/-- The body of `parseExpense` (lines 157-190) once content and author have
been resolved: strip the command prefix and trim, tokenize, reject fewer
than two tokens, reject an unparseable amount, and otherwise build the row. -/
def parseExpenseCore (content : List Char) (author : String) (clock : List Char) :
    Option (List Cell) :=
  match jsTokens (jsTrim (stripCommand content)) with
  | p0 :: p1 :: rest =>
    match jsParseFloat (removeFirstDollar p0) with
    | some n => some (buildRecord n p1 rest author clock)
    | none => none
  | _ => none

/-- The `author` object of a Discord message, as read on line 154: the
`username` property may be absent. -/
structure MsgAuthor where
  username : Option String

/-- A Discord message as read on lines 153-154: `content` and an optional
`author`. -/
structure Message where
  content : String
  author : Option MsgAuthor

/-- The argument of `parseExpense`: a raw string or a message object
(line 152-154 distinguishes them with `typeof input === 'string'`). -/
inductive ExpenseInput where
  | str (s : String)
  | msg (m : Message)

/-- Line 153: `typeof input === 'string' ? input : input.content`. -/
def contentOf : ExpenseInput → String
  | ExpenseInput.str s => s
  | ExpenseInput.msg m => m.content

/-- Line 154: `typeof input === 'string' ? 'System' :
input.author?.username || 'Unknown'`.  A missing author, a missing username,
and the falsy empty-string username all yield `'Unknown'`. -/
def authorOf : ExpenseInput → String
  | ExpenseInput.str _ => "System"
  | ExpenseInput.msg m =>
    match m.author with
    | none => "Unknown"
    | some a =>
      match a.username with
      | none => "Unknown"
      | some u => if u = "" then "Unknown" else u

/-- `parseExpense` (lines 151-191), with the current date injected as
`clock`: returns `none` for the two `return null` rejections and otherwise
the five-element row of line 190. -/
def parseExpense (input : ExpenseInput) (clock : String) : Option (List Cell) :=
  parseExpenseCore (contentOf input).data (authorOf input) clock.data

example : jsTokens "12.50 food".data = ["12.50".data, "food".data] := by decide

example : parseExpense (ExpenseInput.str "!expense 12.50 food") "2099-01-01" =
    some [Cell.str "2099-01-01", Cell.num (JSNum.num 1250 2), Cell.str "food",
      Cell.str "No description", Cell.str "System"] := by decide

example : (JSNum.num 1250 2).toRat = some (25 / 2) := by
  norm_num [JSNum.toRat]

/-! ### Character-class facts -/

theorem isQuoteChar_of_isJsSpace {c : Char} (h : isJsSpace c = true) :
    isQuoteChar c = false := by
  simp only [isJsSpace, Bool.or_eq_true, decide_eq_true_eq, Bool.and_eq_true] at h
  simp only [isQuoteChar, Bool.or_eq_false_iff, decide_eq_false_iff_not]
  omega

theorem isPlainChar_of_isJsSpace {c : Char} (h : isJsSpace c = true) :
    isPlainChar c = false := by
  simp [isPlainChar, h]

theorem takeChunk_none_of_space {c : Char} {cs : List Char} (h : isJsSpace c = true) :
    takeChunk (c :: cs) = none := by
  simp [takeChunk, isPlainChar_of_isJsSpace h, isQuoteChar_of_isJsSpace h]

/-! ### Length bounds for the fuelled tokenizer -/

theorem dropWhile_length_le (p : Char → Bool) (l : List Char) :
    (l.dropWhile p).length ≤ l.length := by
  induction l with
  | nil => simp
  | cons c cs ih =>
    cases h : p c with
    | true =>
      rw [List.dropWhile_cons_of_pos h]
      exact Nat.le_succ_of_le ih
    | false =>
      rw [List.dropWhile_cons_of_neg (by simp [h])]

theorem findQuote_length : ∀ {cs : List Char} {pre : List Char} {q : Char} {rest : List Char},
    findQuote cs = some (pre, q, rest) → rest.length < cs.length := by
  intro cs
  induction cs with
  | nil => intro pre q rest h; simp [findQuote] at h
  | cons c cs ih =>
    intro pre q rest h
    simp only [findQuote] at h
    split at h
    · rcases h with ⟨rfl, rfl, rfl⟩
      simp
    · split at h
      · next pre' q' rest' heq =>
        rcases h with ⟨rfl, rfl, rfl⟩
        have := ih heq
        simp only [List.length_cons]
        omega
      · exact absurd h (by simp)

theorem takeChunk_length {s ch rest : List Char} (h : takeChunk s = some (ch, rest)) :
    rest.length < s.length := by
  match s with
  | [] => simp [takeChunk] at h
  | c :: cs =>
    simp only [takeChunk] at h
    split at h
    · rcases h with ⟨rfl, rfl⟩
      have := dropWhile_length_le isPlainChar cs
      simp only [List.length_cons]
      omega
    · split at h
      · split at h
        · next pre q r heq =>
          rcases h with ⟨rfl, rfl⟩
          have := findQuote_length heq
          simp only [List.length_cons]
          omega
        · exact absurd h (by simp)
      · exact absurd h (by simp)

theorem takeTokenGo_nil : ∀ f : Nat, takeTokenGo f [] = none := by
  intro f
  cases f with
  | zero => rfl
  | succ f => simp [takeTokenGo, takeChunk]

theorem takeTokenGo_congr : ∀ (f g : Nat) (s : List Char),
    s.length ≤ f → s.length ≤ g → takeTokenGo f s = takeTokenGo g s := by
  intro f
  induction f with
  | zero =>
    intro g s hf _
    have : s = [] := List.length_eq_zero.mp (Nat.le_zero.mp hf)
    subst this
    rw [takeTokenGo_nil, takeTokenGo_nil]
  | succ f ih =>
    intro g s hf hg
    match s with
    | [] => rw [takeTokenGo_nil, takeTokenGo_nil]
    | c :: cs =>
      match g with
      | 0 => simp at hg
      | g + 1 =>
        cases h : takeChunk (c :: cs) with
        | none => simp only [takeTokenGo, h]
        | some p =>
          obtain ⟨ch, rest⟩ := p
          have hl := takeChunk_length h
          simp only [List.length_cons] at hl hf hg
          simp only [takeTokenGo, h]
          rw [ih g rest (by omega) (by omega)]

theorem takeTokenGo_eq_takeToken {f : Nat} {s : List Char} (h : s.length ≤ f) :
    takeTokenGo f s = takeToken s :=
  takeTokenGo_congr f s.length s h (Nat.le_refl _)

theorem takeToken_none {s : List Char} (h : takeChunk s = none) : takeToken s = none := by
  match s with
  | [] => rfl
  | c :: cs =>
    show takeTokenGo (cs.length + 1) (c :: cs) = none
    simp [takeTokenGo, h]

theorem takeToken_some {s ch rest : List Char} (h : takeChunk s = some (ch, rest)) :
    takeToken s =
      match takeToken rest with
      | some (t, r) => some (ch ++ t, r)
      | none => some (ch, rest) := by
  match s with
  | [] => simp [takeChunk] at h
  | c :: cs =>
    show takeTokenGo (cs.length + 1) (c :: cs) = _
    have hl := takeChunk_length h
    simp only [List.length_cons] at hl
    simp only [takeTokenGo, h]
    rw [takeTokenGo_eq_takeToken (by omega)]

theorem takeToken_length : ∀ {s t rest : List Char},
    takeToken s = some (t, rest) → rest.length < s.length := by
  suffices H : ∀ (f : Nat) {s t rest : List Char},
      takeTokenGo f s = some (t, rest) → rest.length < s.length by
    intro s t rest h
    exact H s.length h
  intro f
  induction f with
  | zero => intro s t rest h; simp [takeTokenGo] at h
  | succ f ih =>
    intro s t rest h
    simp only [takeTokenGo] at h
    split at h
    · exact absurd h (by simp)
    · next ch r1 heq =>
      have h1 := takeChunk_length heq
      split at h
      · next t' r' heq2 =>
        rcases h with ⟨rfl, rfl⟩
        have := ih heq2
        omega
      · rcases h with ⟨rfl, rfl⟩
        exact h1

/-! ### Unfolding equations for the token scan -/

theorem jsTokensF_succ_cons (f : Nat) (c : Char) (cs : List Char) :
    jsTokensF (f + 1) (c :: cs) =
      match takeToken (c :: cs) with
      | some (t, rest) => t :: jsTokensF f rest
      | none => jsTokensF f cs := rfl

theorem jsTokensF_congr : ∀ (f g : Nat) (s : List Char),
    s.length ≤ f → s.length ≤ g → jsTokensF f s = jsTokensF g s := by
  intro f
  induction f with
  | zero =>
    intro g s hf _
    have : s = [] := List.length_eq_zero.mp (Nat.le_zero.mp hf)
    subst this
    cases g <;> rfl
  | succ f ih =>
    intro g s hf hg
    match s with
    | [] => cases g <;> rfl
    | c :: cs =>
      match g with
      | 0 => simp at hg
      | g + 1 =>
        simp only [List.length_cons] at hf hg
        cases h : takeToken (c :: cs) with
        | none =>
          rw [jsTokensF_succ_cons f, jsTokensF_succ_cons g, h]
          dsimp only
          exact ih g cs (by omega) (by omega)
        | some p =>
          obtain ⟨t, rest⟩ := p
          have hl := takeToken_length h
          simp only [List.length_cons] at hl
          rw [jsTokensF_succ_cons f, jsTokensF_succ_cons g, h]
          dsimp only
          rw [ih g rest (by omega) (by omega)]

theorem jsTokens_cons_none {c : Char} {cs : List Char} (h : takeToken (c :: cs) = none) :
    jsTokens (c :: cs) = jsTokens cs := by
  show jsTokensF (cs.length + 1) (c :: cs) = _
  rw [jsTokensF_succ_cons, h]
  dsimp only
  exact jsTokensF_congr cs.length cs.length cs (Nat.le_refl _) (Nat.le_refl _)

theorem jsTokens_cons_some {c : Char} {cs t rest : List Char}
    (h : takeToken (c :: cs) = some (t, rest)) :
    jsTokens (c :: cs) = t :: jsTokens rest := by
  show jsTokensF (cs.length + 1) (c :: cs) = _
  rw [jsTokensF_succ_cons, h]
  dsimp only
  have hl := takeToken_length h
  simp only [List.length_cons] at hl
  rw [jsTokensF_congr cs.length rest.length rest (by omega) (Nat.le_refl _)]
  rfl

theorem jsTokens_space {c : Char} {cs : List Char} (h : isJsSpace c = true) :
    jsTokens (c :: cs) = jsTokens cs :=
  jsTokens_cons_none (takeToken_none (takeChunk_none_of_space h))

/-! ### More character-class facts -/

theorem isJsSpace_of_isPlainChar {c : Char} (h : isPlainChar c = true) :
    isJsSpace c = false := by
  simp only [isPlainChar, Bool.and_eq_true, Bool.not_eq_true'] at h
  exact h.1

theorem isQuoteChar_of_isPlainChar {c : Char} (h : isPlainChar c = true) :
    isQuoteChar c = false := by
  simp only [isPlainChar, Bool.and_eq_true, Bool.not_eq_true'] at h
  exact h.2

theorem isPlainChar_of_isDigitChar {c : Char} (h : isDigitChar c = true) :
    isPlainChar c = true := by
  simp only [isDigitChar, Bool.and_eq_true, decide_eq_true_eq] at h
  simp only [isPlainChar, isJsSpace, isQuoteChar, Bool.and_eq_true, Bool.not_eq_true',
    Bool.or_eq_false_iff, decide_eq_false_iff_not, Bool.and_eq_false_iff,
    decide_eq_true_eq]
  omega

theorem ne_dollar_of_isDigitChar {c : Char} (h : isDigitChar c = true) : c ≠ '$' := by
  intro hc
  rw [hc] at h
  exact absurd h (by decide)

/-! ### Tokens of well-formed composite inputs -/

theorem dropWhile_head_ne {p : Char → Bool} {l : List Char}
    (h : ∀ c, l.head? = some c → p c = false) : l.dropWhile p = l := by
  cases l with
  | nil => rfl
  | cons c l' => exact List.dropWhile_cons_of_neg (by simp [h c rfl])

theorem takeWhile_head_ne {p : Char → Bool} {l : List Char}
    (h : ∀ c, l.head? = some c → p c = false) : l.takeWhile p = [] := by
  cases l with
  | nil => rfl
  | cons c l' => exact List.takeWhile_cons_of_neg (by simp [h c rfl])

theorem takeChunk_plain {t r : List Char} (ht : t ≠ [])
    (hall : ∀ c ∈ t, isPlainChar c = true)
    (hr : ∀ c, r.head? = some c → isPlainChar c = false) :
    takeChunk (t ++ r) = some (t, r) := by
  obtain ⟨c, t', rfl⟩ : ∃ c t', t = c :: t' := by
    cases t with
    | nil => exact absurd rfl ht
    | cons a b => exact ⟨a, b, rfl⟩
  have hc : isPlainChar c = true := hall c (by simp)
  have ht' : ∀ a ∈ t', isPlainChar a := fun a ha => hall a (by simp [ha])
  rw [List.cons_append]
  simp only [takeChunk, hc, if_pos]
  rw [List.takeWhile_append_of_pos ht', List.dropWhile_append_of_pos ht',
    takeWhile_head_ne hr, dropWhile_head_ne hr, List.append_nil]

theorem takeChunk_none_boundary {r : List Char}
    (hr : ∀ c, r.head? = some c → isJsSpace c = true) : takeChunk r = none := by
  cases r with
  | nil => rfl
  | cons c r' => exact takeChunk_none_of_space (hr c rfl)

theorem takeToken_plain {t r : List Char} (ht : t ≠ [])
    (hall : ∀ c ∈ t, isPlainChar c = true)
    (hr : ∀ c, r.head? = some c → isJsSpace c = true) :
    takeToken (t ++ r) = some (t, r) := by
  have hrp : ∀ c, r.head? = some c → isPlainChar c = false := fun c h =>
    isPlainChar_of_isJsSpace (hr c h)
  rw [takeToken_some (takeChunk_plain ht hall hrp),
    takeToken_none (takeChunk_none_boundary hr)]

theorem findQuote_append {D : List Char} {q : Char} {r : List Char}
    (hD : ∀ c ∈ D, isQuoteChar c = false) (hq : isQuoteChar q = true) :
    findQuote (D ++ q :: r) = some (D, q, r) := by
  induction D with
  | nil => simp [findQuote, hq]
  | cons c D' ih =>
    have hc := hD c (by simp)
    have hD' : ∀ a ∈ D', isQuoteChar a = false := fun a ha => hD a (by simp [ha])
    simp [findQuote, hc, ih hD']

theorem takeChunk_quoted {q1 q2 : Char} {D r : List Char}
    (h1 : isQuoteChar q1 = true) (h2 : isQuoteChar q2 = true)
    (hD : ∀ c ∈ D, isQuoteChar c = false) :
    takeChunk (q1 :: (D ++ q2 :: r)) = some (q1 :: (D ++ [q2]), r) := by
  have hp : isPlainChar q1 = false := by simp [isPlainChar, h1]
  simp [takeChunk, hp, h1, findQuote_append hD h2]

theorem takeToken_quoted {q1 q2 : Char} {D r : List Char}
    (h1 : isQuoteChar q1 = true) (h2 : isQuoteChar q2 = true)
    (hD : ∀ c ∈ D, isQuoteChar c = false)
    (hr : ∀ c, r.head? = some c → isJsSpace c = true) :
    takeToken (q1 :: (D ++ q2 :: r)) = some (q1 :: (D ++ [q2]), r) := by
  rw [takeToken_some (takeChunk_quoted h1 h2 hD),
    takeToken_none (takeChunk_none_boundary hr)]

theorem jsTokens_plain_sep {t r : List Char} (ht : t ≠ [])
    (hall : ∀ c ∈ t, isPlainChar c = true) :
    jsTokens (t ++ ' ' :: r) = t :: jsTokens r := by
  obtain ⟨c, t', rfl⟩ : ∃ c t', t = c :: t' := by
    cases t with
    | nil => exact absurd rfl ht
    | cons a b => exact ⟨a, b, rfl⟩
  have h := takeToken_plain (t := c :: t') (r := ' ' :: r) ht hall
    (by intro x hx; simp at hx; subst hx; rfl)
  rw [List.cons_append] at h ⊢
  rw [jsTokens_cons_some h, jsTokens_space (by rfl)]

theorem jsTokens_plain_end {t : List Char} (ht : t ≠ [])
    (hall : ∀ c ∈ t, isPlainChar c = true) :
    jsTokens t = [t] := by
  obtain ⟨c, t', rfl⟩ : ∃ c t', t = c :: t' := by
    cases t with
    | nil => exact absurd rfl ht
    | cons a b => exact ⟨a, b, rfl⟩
  have h := takeToken_plain (t := c :: t') (r := []) ht hall (by intro x hx; simp at hx)
  rw [List.append_nil] at h
  rw [jsTokens_cons_some h]
  rfl

theorem jsTokens_quoted_sep {q1 q2 : Char} {D r : List Char}
    (h1 : isQuoteChar q1 = true) (h2 : isQuoteChar q2 = true)
    (hD : ∀ c ∈ D, isQuoteChar c = false) :
    jsTokens (q1 :: (D ++ q2 :: ' ' :: r)) = (q1 :: (D ++ [q2])) :: jsTokens r := by
  have h := takeToken_quoted (r := ' ' :: r) h1 h2 hD
    (by intro x hx; simp at hx; subst hx; rfl)
  rw [jsTokens_cons_some h, jsTokens_space (by rfl)]

/-! ### Prefix stripping and trimming of well-formed inputs -/

theorem stripCommand_bang (rest : List Char) :
    stripCommand ('!' :: 'e' :: 'x' :: 'p' :: 'e' :: 'n' :: 's' :: 'e' :: ' ' :: rest) =
      rest.dropWhile isJsSpace := rfl

theorem jsTrim_eq_self {l : List Char}
    (h1 : ∀ c, l.head? = some c → isJsSpace c = false)
    (h2 : ∀ c, l.getLast? = some c → isJsSpace c = false) :
    jsTrim l = l := by
  rw [jsTrim, dropWhile_head_ne h1,
    dropWhile_head_ne (fun c hc => h2 c (by rwa [List.head?_reverse] at hc)),
    List.reverse_reverse]

/-! ### Quote stripping, dollar removal, joining -/

theorem stripQuotes_id {l : List Char} (h : ∀ c ∈ l, isQuoteChar c = false) :
    stripQuotes l = l := by
  rw [stripQuotes, List.filter_eq_self.mpr]
  intro a ha
  simp [h a ha]

theorem stripQuotes_quoted {q1 q2 : Char} {D : List Char}
    (h1 : isQuoteChar q1 = true) (h2 : isQuoteChar q2 = true)
    (hD : ∀ c ∈ D, isQuoteChar c = false) :
    stripQuotes (q1 :: (D ++ [q2])) = D := by
  simp only [stripQuotes, List.filter_cons, List.filter_append, h1, h2]
  simp only [Bool.not_true, List.filter_cons, h2]
  rw [show List.filter (fun c => !isQuoteChar c) D = D from
    List.filter_eq_self.mpr (fun a ha => by simp [hD a ha])]
  simp

theorem removeFirstDollar_id {l : List Char} (h : ∀ c ∈ l, c ≠ '$') :
    removeFirstDollar l = l := by
  induction l with
  | nil => rfl
  | cons c l' ih =>
    have hc := h c (by simp)
    simp only [removeFirstDollar, if_neg hc]
    rw [ih (fun a ha => h a (by simp [ha]))]

theorem joinSp_singleton (t : List Char) : joinSp [t] = t := by
  simp [joinSp, List.intercalate]

/-! ### Shape of date-patterned tokens -/

theorem matchesDatePattern_shape {s : List Char} (h : matchesDatePattern s = true) :
    ∃ y1 y2 y3 y4 m1 m2 d1 d2,
      s = [y1, y2, y3, y4, '-', m1, m2, '-', d1, d2] ∧
      isDigitChar y1 = true ∧ isDigitChar y2 = true ∧ isDigitChar y3 = true ∧
      isDigitChar y4 = true ∧ isDigitChar m1 = true ∧ isDigitChar m2 = true ∧
      isDigitChar d1 = true ∧ isDigitChar d2 = true := by
  rcases s with _ | ⟨y1, _ | ⟨y2, _ | ⟨y3, _ | ⟨y4, _ | ⟨h1, _ | ⟨m1, _ | ⟨m2, _ | ⟨h2, _ |
    ⟨d1, _ | ⟨d2, _ | ⟨x, tl⟩⟩⟩⟩⟩⟩⟩⟩⟩⟩⟩ <;>
    simp only [matchesDatePattern, Bool.and_eq_true, decide_eq_true_eq,
      Bool.false_eq_true] at h
  obtain ⟨⟨⟨⟨⟨⟨⟨⟨⟨hy1, hy2⟩, hy3⟩, hy4⟩, hh1⟩, hm1⟩, hm2⟩, hh2⟩, hd1⟩, hd2⟩ := h
  subst hh1
  subst hh2
  exact ⟨y1, y2, y3, y4, m1, m2, d1, d2, rfl, hy1, hy2, hy3, hy4, hm1, hm2, hd1, hd2⟩

/-! ### Unfolding helpers for the parser body -/

theorem parseExpenseCore_eq (content : List Char) (author : String) (clock : List Char) :
    parseExpenseCore content author clock =
      match jsTokens (jsTrim (stripCommand content)) with
      | p0 :: p1 :: rest =>
        match jsParseFloat (removeFirstDollar p0) with
        | some n => some (buildRecord n p1 rest author clock)
        | none => none
      | _ => none := rfl

theorem buildRecord_cons (n : JSNum) (p1 : List Char) (r : List Char)
    (rs : List (List Char)) (author : String) (clock : List Char) :
    buildRecord n p1 (r :: rs) author clock =
      if matchesDatePattern ((r :: rs).getLastD []) then
        [Cell.str (String.mk ((r :: rs).getLastD [])), Cell.num n,
         Cell.str (String.mk (stripQuotes p1)),
         Cell.str (String.mk (stripQuotes (joinSp ((r :: rs).dropLast)))), Cell.str author]
      else
        [Cell.str (String.mk clock), Cell.num n, Cell.str (String.mk (stripQuotes p1)),
         Cell.str (String.mk (stripQuotes (joinSp (r :: rs)))), Cell.str author] := rfl

theorem parseExpense_str (s : String) (clock : String) :
    parseExpense (ExpenseInput.str s) clock = parseExpenseCore s.data "System" clock.data := rfl

theorem parseExpense_msg_username (content : List Char) (u clock : String) (hu : u ≠ "") :
    parseExpense
      (ExpenseInput.msg { content := String.mk content, author := some { username := some u } })
      clock = parseExpenseCore content u clock.data := by
  show parseExpenseCore content
    (authorOf (ExpenseInput.msg
      { content := String.mk content, author := some { username := some u } })) clock.data = _
  rw [show authorOf (ExpenseInput.msg
      { content := String.mk content, author := some { username := some u } }) = u from by
    simp [authorOf, hu]]

/-- Claim C1: for every well-formed input `!expense <amount> <category>
"<description>" <date>` — an amount token made of digits and decimal points
that `parseFloat` accepts with value `n`, a non-empty category token of
plain characters, a double-quoted description with no quote characters
inside, and a trailing token matching `\d{4}-\d{2}-\d{2}` — `parseExpense`
returns a Valid record holding exactly that literal date, that amount, that
category and that description, plus the author, with the fields in the
order `[date, amount, category, description, author]`. -/
theorem claim1_wellformed_record (A C D DT : List Char) (u clock : String) (n : JSNum)
    (hAne : A ≠ []) (hA : ∀ c ∈ A, isDigitChar c = true ∨ c = '.')
    (hCne : C ≠ []) (hC : ∀ c ∈ C, isPlainChar c = true)
    (hD : ∀ c ∈ D, isQuoteChar c = false)
    (hDT : matchesDatePattern DT = true)
    (hn : jsParseFloat A = some n)
    (hu : u ≠ "") :
    parseExpense
      (ExpenseInput.msg
        { content := String.mk ('!' :: 'e' :: 'x' :: 'p' :: 'e' :: 'n' :: 's' :: 'e' :: ' ' ::
            (A ++ ' ' :: (C ++ ' ' :: dq :: (D ++ dq :: ' ' :: DT)))),
          author := some { username := some u } })
      clock =
    some [Cell.str (String.mk DT), Cell.num n, Cell.str (String.mk C),
      Cell.str (String.mk D), Cell.str u] := by
  obtain ⟨a, A', rfl⟩ : ∃ a A', A = a :: A' := by
    cases A with
    | nil => exact absurd rfl hAne
    | cons x y => exact ⟨x, y, rfl⟩
  have hAp : ∀ c ∈ a :: A', isPlainChar c = true := by
    intro c hc
    rcases hA c hc with h | h
    · exact isPlainChar_of_isDigitChar h
    · rw [h]; decide
  have hap : isPlainChar a = true := hAp a (by simp)
  obtain ⟨y1, y2, y3, y4, m1, m2, d1, d2, rfl, hy1, hy2, hy3, hy4, hm1, hm2, hd1, hd2⟩ :=
    matchesDatePattern_shape hDT
  have hDTne : ([y1, y2, y3, y4, '-', m1, m2, '-', d1, d2] : List Char) ≠ [] := by simp
  have hDTp : ∀ c ∈ [y1, y2, y3, y4, '-', m1, m2, '-', d1, d2], isPlainChar c = true := by
    intro c hc
    simp only [List.mem_cons, List.not_mem_nil, or_false] at hc
    rcases hc with rfl | rfl | rfl | rfl | rfl | rfl | rfl | rfl | rfl | rfl
    exacts [isPlainChar_of_isDigitChar hy1, isPlainChar_of_isDigitChar hy2,
      isPlainChar_of_isDigitChar hy3, isPlainChar_of_isDigitChar hy4, by decide,
      isPlainChar_of_isDigitChar hm1, isPlainChar_of_isDigitChar hm2, by decide,
      isPlainChar_of_isDigitChar hd1, isPlainChar_of_isDigitChar hd2]
  rw [parseExpense_msg_username _ _ _ hu, parseExpenseCore_eq, stripCommand_bang]
  have hrest_head : ∀ c,
      ((a :: A') ++ ' ' :: (C ++ ' ' :: dq :: (D ++ dq :: ' ' ::
        [y1, y2, y3, y4, '-', m1, m2, '-', d1, d2]))).head? = some c →
      isJsSpace c = false := by
    intro c hc
    simp only [List.cons_append, List.head?_cons, Option.some.injEq] at hc
    subst hc
    exact isJsSpace_of_isPlainChar hap
  rw [dropWhile_head_ne hrest_head]
  have hre : (a :: A') ++ ' ' :: (C ++ ' ' :: dq :: (D ++ dq :: ' ' ::
        [y1, y2, y3, y4, '-', m1, m2, '-', d1, d2])) =
      ((a :: A') ++ ' ' :: (C ++ ' ' :: dq :: (D ++ dq :: ' ' ::
        [y1, y2, y3, y4, '-', m1, m2, '-', d1]))) ++ [d2] := by
    simp
  have hlast : ((a :: A') ++ ' ' :: (C ++ ' ' :: dq :: (D ++ dq :: ' ' ::
      [y1, y2, y3, y4, '-', m1, m2, '-', d1, d2]))).getLast? = some d2 := by
    rw [hre]
    exact List.getLast?_concat _
  rw [jsTrim_eq_self hrest_head (fun c hc => by
    rw [hlast] at hc
    injection hc with hh
    subst hh
    exact isJsSpace_of_isPlainChar (isPlainChar_of_isDigitChar hd2))]
  rw [jsTokens_plain_sep (List.cons_ne_nil a A') hAp,
    jsTokens_plain_sep hCne hC,
    jsTokens_quoted_sep (by decide) (by decide) hD,
    jsTokens_plain_end hDTne hDTp]
  dsimp only
  have hnod : ∀ c ∈ a :: A', c ≠ '$' := by
    intro c hc
    rcases hA c hc with h | h
    · exact ne_dollar_of_isDigitChar h
    · rw [h]; decide
  rw [removeFirstDollar_id hnod, hn]
  dsimp only
  rw [buildRecord_cons]
  rw [show (([dq :: (D ++ [dq]), [y1, y2, y3, y4, '-', m1, m2, '-', d1, d2]] :
      List (List Char)).getLastD []) = [y1, y2, y3, y4, '-', m1, m2, '-', d1, d2] from rfl]
  rw [if_pos hDT]
  rw [show ([dq :: (D ++ [dq]), [y1, y2, y3, y4, '-', m1, m2, '-', d1, d2]] :
      List (List Char)).dropLast = [dq :: (D ++ [dq])] from rfl]
  rw [joinSp_singleton, stripQuotes_quoted (by decide) (by decide) hD,
    stripQuotes_id (fun c hc => isQuoteChar_of_isPlainChar (hC c hc))]

/-- Witness for claim C1 at a concrete well-formed command. -/
theorem claim1_wellformed_record_witness :
    parseExpense
      (ExpenseInput.msg
        { content := "!expense 12.50 food \"team lunch\" 2023-05-20",
          author := some { username := some "alice" } })
      "2099-01-01" =
    some [Cell.str "2023-05-20", Cell.num (JSNum.num 1250 2), Cell.str "food",
      Cell.str "team lunch", Cell.str "alice"] :=
  claim1_wellformed_record "12.50".data "food".data "team lunch".data "2023-05-20".data
    "alice" "2099-01-01" (JSNum.num 1250 2) (by decide) (by decide) (by decide) (by decide)
    (by decide) (by decide) (by decide) (by decide)

/-! ### Shared shape facts about the emitted row -/

theorem mem_stripQuotes {c : Char} {l : List Char} (h : c ∈ stripQuotes l) :
    isQuoteChar c = false := by
  simp only [stripQuotes, List.mem_filter, Bool.not_eq_true'] at h
  exact h.2

theorem parseExpense_msg_noauthor (content : String) (clock : String) :
    parseExpense (ExpenseInput.msg { content := content, author := none }) clock =
      parseExpenseCore content.data "Unknown" clock.data := rfl

theorem parseExpense_msg_nousername (content : String) (clock : String) :
    parseExpense (ExpenseInput.msg { content := content, author := some { username := none } })
      clock = parseExpenseCore content.data "Unknown" clock.data := rfl

theorem core_some_shape {content : List Char} {author : String} {clock : List Char}
    {cells : List Cell} (h : parseExpenseCore content author clock = some cells) :
    ∃ d n cat ds, cells =
      [Cell.str d, Cell.num n, Cell.str cat, Cell.str ds, Cell.str author] := by
  rw [parseExpenseCore_eq] at h
  cases htok : jsTokens (jsTrim (stripCommand content)) with
  | nil => rw [htok] at h; simp at h
  | cons p0 tail =>
    cases tail with
    | nil => rw [htok] at h; simp at h
    | cons p1 rest =>
      rw [htok] at h
      dsimp only at h
      cases hn : jsParseFloat (removeFirstDollar p0) with
      | none => rw [hn] at h; simp at h
      | some n =>
        rw [hn] at h
        dsimp only at h
        have hc : cells = buildRecord n p1 rest author clock := by
          injection h with h'
          exact h'.symm
        subst hc
        cases rest with
        | nil => exact ⟨_, _, _, _, rfl⟩
        | cons r rs =>
          rw [buildRecord_cons]
          by_cases hd : matchesDatePattern ((r :: rs).getLastD []) = true
          · rw [if_pos hd]
            exact ⟨_, _, _, _, rfl⟩
          · rw [if_neg hd]
            exact ⟨_, _, _, _, rfl⟩

/-- Claim C2 counterexample: the claim says a thousands-separator token such
as `1,200` causes a Rejected result, but `parseFloat` stops at the comma and
coerces the amount to `1`, so the command is accepted with amount `1`. -/
theorem claim2_counterexample :
    parseExpense (ExpenseInput.str "!expense 1,200 food") "2099-01-01" =
      some [Cell.str "2099-01-01", Cell.num (JSNum.num 1 0), Cell.str "food",
        Cell.str "No description", Cell.str "System"] := by decide

/-- Claim C2 (amended): once at least two tokens are present, the command is
rejected exactly when `parseFloat` of the amount token (first `$` removed)
returns `NaN` — i.e. when no numeric prefix exists at all.  A token with
trailing garbage, several decimal points, or a thousands separator is
coerced to its longest numeric prefix, not rejected; a leading digit is
still not required, e.g. `.50` parses to 50/100. -/
theorem claim2_amount_acceptance :
    (∀ (content : List Char) (author : String) (clock : List Char) (p0 p1 : List Char)
        (rest : List (List Char)),
      jsTokens (jsTrim (stripCommand content)) = p0 :: p1 :: rest →
      (parseExpenseCore content author clock = none ↔
        jsParseFloat (removeFirstDollar p0) = none)) ∧
    parseExpense (ExpenseInput.str "!expense .50 food") "2099-01-01" =
      some [Cell.str "2099-01-01", Cell.num (JSNum.num 50 2), Cell.str "food",
        Cell.str "No description", Cell.str "System"] ∧
    parseExpense (ExpenseInput.str "!expense 1.2.3 food") "2099-01-01" =
      some [Cell.str "2099-01-01", Cell.num (JSNum.num 12 1), Cell.str "food",
        Cell.str "No description", Cell.str "System"] := by
  refine ⟨?_, by decide, by decide⟩
  intro content author clock p0 p1 rest htok
  rw [parseExpenseCore_eq, htok]
  dsimp only
  cases h : jsParseFloat (removeFirstDollar p0) with
  | none => simp
  | some n => simp

/-- Witness for claim C2: a token with no numeric prefix at all is rejected. -/
theorem claim2_amount_acceptance_witness :
    parseExpense (ExpenseInput.str "!expense abc food") "2099-01-01" = none := by
  rw [parseExpense_str]
  exact (claim2_amount_acceptance.1 "!expense abc food".data "System" "2099-01-01".data
    "abc".data "food".data [] (by decide)).mpr (by decide)

/-- Claim C3: whenever the text left after prefix stripping and trimming
tokenizes to fewer than two tokens (in particular for an empty or
whitespace-only remainder), `parseExpense` rejects with `null`; `!expense`
alone and `!expense 12.50` are both rejected. -/
theorem claim3_too_few_tokens :
    (∀ (input : ExpenseInput) (clock : String),
      (jsTokens (jsTrim (stripCommand (contentOf input).data))).length < 2 →
      parseExpense input clock = none) ∧
    parseExpense (ExpenseInput.str "!expense") "2099-01-01" = none ∧
    parseExpense (ExpenseInput.str "!expense 12.50") "2099-01-01" = none := by
  refine ⟨?_, by decide, by decide⟩
  intro input clock hlen
  show parseExpenseCore (contentOf input).data (authorOf input) clock.data = none
  rw [parseExpenseCore_eq]
  cases htok : jsTokens (jsTrim (stripCommand (contentOf input).data)) with
  | nil => rfl
  | cons p0 tail =>
    cases tail with
    | nil => rfl
    | cons p1 rest =>
      rw [htok] at hlen
      simp only [List.length_cons] at hlen
      omega

/-- Witness for claim C3: a whitespace-only remainder yields zero tokens and
is rejected. -/
theorem claim3_too_few_tokens_witness :
    parseExpense (ExpenseInput.str "!expense   ") "2099-01-01" = none :=
  claim3_too_few_tokens.1 (ExpenseInput.str "!expense   ") "2099-01-01" (by decide)

/-- Claim C4: with more than two tokens, the date comes from the last token
exactly when that token matches `\d{4}-\d{2}-\d{2}` (and then the last token
is removed before the description is joined); otherwise the date is the
injected clock value and the last token stays in the description.  A
date-shaped token that is not last is just description text, and a non-date
trailing token such as `12345` is kept in the description. -/
theorem claim4_date_only_last_token :
    (∀ (content : List Char) (author : String) (clock : List Char) (p0 p1 r : List Char)
        (rs : List (List Char)) (n : JSNum),
      jsTokens (jsTrim (stripCommand content)) = p0 :: p1 :: r :: rs →
      jsParseFloat (removeFirstDollar p0) = some n →
      (matchesDatePattern ((r :: rs).getLastD []) = true →
        parseExpenseCore content author clock =
          some [Cell.str (String.mk ((r :: rs).getLastD [])), Cell.num n,
            Cell.str (String.mk (stripQuotes p1)),
            Cell.str (String.mk (stripQuotes (joinSp ((r :: rs).dropLast)))),
            Cell.str author]) ∧
      (matchesDatePattern ((r :: rs).getLastD []) = false →
        parseExpenseCore content author clock =
          some [Cell.str (String.mk clock), Cell.num n,
            Cell.str (String.mk (stripQuotes p1)),
            Cell.str (String.mk (stripQuotes (joinSp (r :: rs)))),
            Cell.str author])) ∧
    parseExpense (ExpenseInput.str "!expense 3 snacks chips 12345") "2099-01-01" =
      some [Cell.str "2099-01-01", Cell.num (JSNum.num 3 0), Cell.str "snacks",
        Cell.str "chips 12345", Cell.str "System"] ∧
    parseExpense (ExpenseInput.str "!expense 3 snacks 2023-01-01 extra") "2099-01-01" =
      some [Cell.str "2099-01-01", Cell.num (JSNum.num 3 0), Cell.str "snacks",
        Cell.str "2023-01-01 extra", Cell.str "System"] := by
  refine ⟨?_, by decide, by decide⟩
  intro content author clock p0 p1 r rs n htok hn
  rw [parseExpenseCore_eq, htok]
  dsimp only
  rw [hn]
  dsimp only
  rw [buildRecord_cons]
  constructor
  · intro hd
    rw [if_pos hd]
  · intro hd
    rw [if_neg (by rw [hd]; exact Bool.false_ne_true)]

/-- Witness for claim C4: a trailing date-shaped token is extracted. -/
theorem claim4_date_only_last_token_witness :
    parseExpense (ExpenseInput.str "!expense 4 a b 2020-01-02") "2099-01-01" =
      some [Cell.str "2020-01-02", Cell.num (JSNum.num 4 0), Cell.str "a",
        Cell.str "b", Cell.str "System"] := by
  rw [parseExpense_str]
  exact (claim4_date_only_last_token.1 "!expense 4 a b 2020-01-02".data "System"
    "2099-01-01".data "4".data "a".data "b".data ["2020-01-02".data] (JSNum.num 4 0)
    (by decide) (by decide)).1 (by decide)

/-- Claim C5: the code at the failing input `!expense 5 food 2023-01-01`.
After the date is popped, `parts.slice(2).join(' ')` runs on an empty slice
and overwrites the `'No description'` default with the empty string, so the
emitted description is `""`, not the placeholder the specification states.
The other two omission laws hold: with no trailing date the date falls back
to the injected clock, and with only two tokens the description placeholder
is used. -/
theorem claim5_description_empty_when_date_only :
    parseExpense (ExpenseInput.str "!expense 5 food 2023-01-01") "2099-12-31" =
      some [Cell.str "2023-01-01", Cell.num (JSNum.num 5 0), Cell.str "food",
        Cell.str "", Cell.str "System"] ∧
    parseExpense (ExpenseInput.str "!expense 5 food lunch") "2099-12-31" =
      some [Cell.str "2099-12-31", Cell.num (JSNum.num 5 0), Cell.str "food",
        Cell.str "lunch", Cell.str "System"] ∧
    parseExpense (ExpenseInput.str "!expense 5 food") "2099-12-31" =
      some [Cell.str "2099-12-31", Cell.num (JSNum.num 5 0), Cell.str "food",
        Cell.str "No description", Cell.str "System"] :=
  ⟨by decide, by decide, by decide⟩

/-- Claim C6 counterexample: the claim says quote characters are stripped
from every token's value independently, but the amount token is passed to
`parseFloat` unstripped: `!expense "5" food` is rejected, while the same
command with an unquoted amount is accepted. -/
theorem claim6_counterexample :
    parseExpense (ExpenseInput.str "!expense \"5\" food") "2099-01-01" = none ∧
    parseExpense (ExpenseInput.str "!expense 5 food") "2099-01-01" =
      some [Cell.str "2099-01-01", Cell.num (JSNum.num 5 0), Cell.str "food",
        Cell.str "No description", Cell.str "System"] :=
  ⟨by decide, by decide⟩

/-- Claim C6 (amended): a quoted run (single or double quotes) is tokenized
as one field whose interior may contain whitespace; quote characters are
stripped independently from the category token and from the joined
description (even when only partially quoted), but not from the amount
token (a quoted amount is rejected, see the counterexample) nor from the
token inspected for the date.  The worked example
`!expense 12.50 food "lunch with team"` yields
`[<today>, 12.50, food, lunch with team, author]`. -/
theorem claim6_quote_stripping :
    (∀ (content : List Char) (author : String) (clock : List Char) (p0 p1 : List Char)
        (rest : List (List Char)) (n : JSNum) (cells : List Cell),
      jsTokens (jsTrim (stripCommand content)) = p0 :: p1 :: rest →
      jsParseFloat (removeFirstDollar p0) = some n →
      parseExpenseCore content author clock = some cells →
      cells.get? 2 = some (Cell.str (String.mk (stripQuotes p1))) ∧
      (∀ ds, cells.get? 3 = some (Cell.str ds) → ∀ c ∈ ds.data, isQuoteChar c = false)) ∧
    parseExpense (ExpenseInput.str "!expense 12.50 food \"lunch with team\"") "2099-01-01" =
      some [Cell.str "2099-01-01", Cell.num (JSNum.num 1250 2), Cell.str "food",
        Cell.str "lunch with team", Cell.str "System"] := by
  refine ⟨?_, by decide⟩
  intro content author clock p0 p1 rest n cells htok hn hcells
  rw [parseExpenseCore_eq, htok] at hcells
  dsimp only at hcells
  rw [hn] at hcells
  dsimp only at hcells
  have hc : cells = buildRecord n p1 rest author clock := by
    injection hcells with h'
    exact h'.symm
  subst hc
  cases rest with
  | nil =>
    refine ⟨rfl, ?_⟩
    intro ds hds c hc
    simp only [buildRecord, List.get?] at hds
    injection hds with h'
    injection h' with h''
    rw [← h''] at hc
    have hnd : ∀ x ∈ ("No description" : String).data, isQuoteChar x = false := by decide
    exact hnd c hc
  | cons r rs =>
    rw [buildRecord_cons]
    by_cases hd : matchesDatePattern ((r :: rs).getLastD []) = true
    · rw [if_pos hd]
      refine ⟨rfl, ?_⟩
      intro ds hds c hc
      simp only [List.get?] at hds
      injection hds with h'
      injection h' with h''
      rw [← h''] at hc
      exact mem_stripQuotes hc
    · rw [if_neg hd]
      refine ⟨rfl, ?_⟩
      intro ds hds c hc
      simp only [List.get?] at hds
      injection hds with h'
      injection h' with h''
      rw [← h''] at hc
      exact mem_stripQuotes hc

/-- Witness for claim C6: a quoted category is stripped to its interior. -/
theorem claim6_quote_stripping_witness :
    ([Cell.str "2099-01-01", Cell.num (JSNum.num 7 0), Cell.str "food", Cell.str "note",
        Cell.str "System"] : List Cell).get? 2 =
      some (Cell.str (String.mk (stripQuotes ('\x22' :: ("food".data ++ ['\x22']))))) :=
  ((claim6_quote_stripping.1 "!expense 7 \"food\" note".data "System" "2099-01-01".data
    "7".data ('\x22' :: ("food".data ++ ['\x22'])) ["note".data] (JSNum.num 7 0)
    [Cell.str "2099-01-01", Cell.num (JSNum.num 7 0), Cell.str "food", Cell.str "note",
      Cell.str "System"]
    (by decide) (by decide) (by decide)).1)

/-- Claim C7 counterexample: the record invariant fails — `parseFloat`
accepts `-Infinity`, so a Valid record can carry a non-finite, negative
amount, and a quote-only category token yields an empty category. -/
theorem claim7_counterexample :
    parseExpense (ExpenseInput.str "!expense -Infinity \"\"") "2099-01-01" =
      some [Cell.str "2099-01-01", Cell.num (JSNum.inf true), Cell.str "",
        Cell.str "No description", Cell.str "System"] := by decide

/-- Claim C7 (amended): every Valid record has five cells; its date cell
matches the ISO calendar-date pattern whenever the injected clock string
does (the date is either the extracted pattern-matching token or the clock
value); and its category cell contains no quote characters — but the amount
may be negative or infinite (anything `parseFloat` accepts) and the
category may be empty. -/
theorem claim7_record_invariant :
    ∀ (input : ExpenseInput) (clock : String) (cells : List Cell),
      matchesDatePattern clock.data = true →
      parseExpense input clock = some cells →
      cells.length = 5 ∧
      (∀ d, cells.get? 0 = some (Cell.str d) → matchesDatePattern d.data = true) ∧
      (∀ cat, cells.get? 2 = some (Cell.str cat) → ∀ c ∈ cat.data, isQuoteChar c = false) := by
  intro input clock cells hclock hsome
  rw [show parseExpense input clock =
    parseExpenseCore (contentOf input).data (authorOf input) clock.data from rfl] at hsome
  rw [parseExpenseCore_eq] at hsome
  cases htok : jsTokens (jsTrim (stripCommand (contentOf input).data)) with
  | nil => rw [htok] at hsome; simp at hsome
  | cons p0 tail =>
    cases tail with
    | nil => rw [htok] at hsome; simp at hsome
    | cons p1 rest =>
      rw [htok] at hsome
      dsimp only at hsome
      cases hn : jsParseFloat (removeFirstDollar p0) with
      | none => rw [hn] at hsome; simp at hsome
      | some n =>
        rw [hn] at hsome
        dsimp only at hsome
        have hc : cells = buildRecord n p1 rest (authorOf input) clock.data := by
          injection hsome with h'
          exact h'.symm
        subst hc
        cases rest with
        | nil =>
          refine ⟨rfl, ?_, ?_⟩
          · intro d hd
            simp only [buildRecord, List.get?] at hd
            injection hd with h'
            injection h' with h''
            rw [← h'']
            exact hclock
          · intro cat hcat c hc
            simp only [buildRecord, List.get?] at hcat
            injection hcat with h'
            injection h' with h''
            rw [← h''] at hc
            exact mem_stripQuotes hc
        | cons r rs =>
          rw [buildRecord_cons]
          by_cases hd : matchesDatePattern ((r :: rs).getLastD []) = true
          · rw [if_pos hd]
            refine ⟨rfl, ?_, ?_⟩
            · intro d hd0
              simp only [List.get?] at hd0
              injection hd0 with h'
              injection h' with h''
              rw [← h'']
              exact hd
            · intro cat hcat c hc
              simp only [List.get?] at hcat
              injection hcat with h'
              injection h' with h''
              rw [← h''] at hc
              exact mem_stripQuotes hc
          · rw [if_neg hd]
            refine ⟨rfl, ?_, ?_⟩
            · intro d hd0
              simp only [List.get?] at hd0
              injection hd0 with h'
              injection h' with h''
              rw [← h'']
              exact hclock
            · intro cat hcat c hc
              simp only [List.get?] at hcat
              injection hcat with h'
              injection h' with h''
              rw [← h''] at hc
              exact mem_stripQuotes hc

/-- Witness for claim C7, reading the date-pattern fact off a concrete
Valid record. -/
theorem claim7_record_invariant_witness :
    matchesDatePattern ("2024-01-01" : String).data = true :=
  (claim7_record_invariant (ExpenseInput.str "!expense 5 food") "2024-01-01"
    [Cell.str "2024-01-01", Cell.num (JSNum.num 5 0), Cell.str "food",
      Cell.str "No description", Cell.str "System"]
    (by decide) (by decide)).2.1 "2024-01-01" rfl

/-- Claim C8: the parse result is a pure function of the command text, the
resolved author identity, and the injected clock — parsing the same input
twice with the same fixed clock yields identical results. -/
theorem claim8_deterministic :
    ∀ (i j : ExpenseInput) (clock : String),
      contentOf i = contentOf j → authorOf i = authorOf j →
      parseExpense i clock = parseExpense j clock := by
  intro i j clock h1 h2
  simp only [parseExpense, h1, h2]

/-- Witness for claim C8: a raw string and a message object with the same
content and resolved author parse identically. -/
theorem claim8_deterministic_witness :
    parseExpense (ExpenseInput.str "!expense 5 food") "2024-01-01" =
      parseExpense
        (ExpenseInput.msg
          { content := "!expense 5 food", author := some { username := some "System" } })
        "2024-01-01" :=
  claim8_deterministic _ _ _ (by decide) (by decide)

/-- Claim C9: when `parseExpense` is given a raw string, any record it
emits carries the literal author `System`; when given a message object
whose author is missing or has no username, the author cell is the literal
`Unknown`. -/
theorem claim9_author_fallback :
    (∀ (s clock : String) (cells : List Cell),
      parseExpense (ExpenseInput.str s) clock = some cells →
      cells.get? 4 = some (Cell.str "System")) ∧
    (∀ (content clock : String) (cells : List Cell),
      parseExpense (ExpenseInput.msg { content := content, author := none }) clock =
        some cells →
      cells.get? 4 = some (Cell.str "Unknown")) ∧
    (∀ (content clock : String) (cells : List Cell),
      parseExpense (ExpenseInput.msg { content := content, author := some { username := none } })
        clock = some cells →
      cells.get? 4 = some (Cell.str "Unknown")) := by
  refine ⟨?_, ?_, ?_⟩
  · intro s clock cells h
    rw [parseExpense_str] at h
    obtain ⟨d, n, cat, ds, rfl⟩ := core_some_shape h
    rfl
  · intro content clock cells h
    rw [parseExpense_msg_noauthor] at h
    obtain ⟨d, n, cat, ds, rfl⟩ := core_some_shape h
    rfl
  · intro content clock cells h
    rw [parseExpense_msg_nousername] at h
    obtain ⟨d, n, cat, ds, rfl⟩ := core_some_shape h
    rfl

/-- Witness for claim C9: a concrete raw-string parse carries `System`. -/
theorem claim9_author_fallback_witness :
    ([Cell.str "2099-01-01", Cell.num (JSNum.num 5 0), Cell.str "food",
        Cell.str "No description", Cell.str "System"] : List Cell).get? 4 =
      some (Cell.str "System") :=
  claim9_author_fallback.1 "!expense 5 food" "2099-01-01"
    [Cell.str "2099-01-01", Cell.num (JSNum.num 5 0), Cell.str "food",
      Cell.str "No description", Cell.str "System"] (by decide)

/-- Claim C10: `parseExpense` is total — for every input and clock it
returns either `null` or a five-element row
`[date, amount, category, description, author]` of those cell types; no
other result shape is possible. -/
theorem claim10_totality :
    ∀ (input : ExpenseInput) (clock : String),
      parseExpense input clock = none ∨
      ∃ d n cat ds au, parseExpense input clock =
        some [Cell.str d, Cell.num n, Cell.str cat, Cell.str ds, Cell.str au] := by
  intro input clock
  cases h : parseExpense input clock with
  | none => exact Or.inl rfl
  | some cells =>
    obtain ⟨d, n, cat, ds, rfl⟩ := core_some_shape
      (show parseExpenseCore (contentOf input).data (authorOf input) clock.data = some cells
        from h)
    exact Or.inr ⟨d, n, cat, ds, authorOf input, rfl⟩

end ExpenseBot
